import Mathlib

/-!
# Verification of the spritecollab-srv asset/data backing plane

Shallow embedding of the parts of the `spritecollab-srv` Rust server that the
claims C1..C10 are about, together with theorems settling each claim.

Conventions used throughout:
* Rust `i32`/`i64` values are embedded as `Int`, `u32` as `Nat` (with notes at
  the places where width or wrapping could matter).
* `HashMap<K, V>` is embedded as an association list `List (K × V)`; lookups
  take the first matching key.  A `HashMap`'s iteration order is arbitrary; the
  association list records one concrete such order (the order in which entries
  are observed), which all embedded code leaves untouched unless the source
  itself rewrites the map.
* Fallible Rust code (`Result`) becomes `Except`; potential panics become
  `Option` with `none` for the panic.
* I/O is passed in as explicit data (file contents, open/save results) and
  recorded as explicit traces where a claim is about the side effect itself.
-/

namespace SpriteCollabSrv

/-! ## Form path canonicalization (src/assets/util.rs)

`force_non_shiny_group` and `force_shiny_group` operate on form paths
(`Vec<i32>`, embedded as `List Int`). -/

/-- `src/assets/util.rs::force_non_shiny_group`: copy the path, force index 1
to 0 when the path has at least two elements, then pop trailing zeros. -/
def force_non_shiny_group (group : List Int) : List Int :=
  let collected := if 2 ≤ group.length then group.set 1 0 else group
  ((collected.reverse.dropWhile (· == 0)).reverse)

/-- `src/assets/util.rs::force_shiny_group`: force index 1 to 1, padding the
path to length at least 2 (`[0, 1]` for the empty path). -/
def force_shiny_group (group : List Int) : List Int :=
  if 2 ≤ group.length then group.set 1 1
  else if group.length == 1 then group ++ [1]
  else [0, 1]

/-- The asset types of `src/assets/url.rs::AssetType` reachable from
`match_and_process_assets_path` (the actions carry no payload there). -/
inductive AssetType where
  | portraitCreditsTxt
  | spriteCreditsTxt
  | portraitSheet
  | portraitRecolorSheet
  | spriteZip
  | spriteRecolorSheet
deriving DecidableEq, Repr

/-- `src/assets/mod.rs::match_and_process_assets_path`, lines 79-91: the form
path that is handed to `MonsterFormCollector::find_form` (wrapped in
`FormMatch::Exact`) for each asset type.  Both recolor asset types run the
requested path through `force_non_shiny_group`; every other type uses the
requested path as-is. -/
def formPathForResolution (assetType : AssetType) (form_path : List Int) : List Int :=
  match assetType with
  | .portraitRecolorSheet => force_non_shiny_group form_path
  | .spriteRecolorSheet => force_non_shiny_group form_path
  | _ => form_path

/-- `src/assets/url.rs::get_url` for the two recolor asset types joins the
monster id with `force_shiny_group` of the path; this is the only place
`force_shiny_group` is used. -/
def formPathForRecolorUrl (form_path : List Int) : List Int :=
  force_shiny_group form_path

/-! ## Tracker (src/datafiles/tracker.rs)

`Group` is a nested record.  Of its fields, the claims read `name`,
`portrait_files`, `sprite_files` and `subgroups`; the remaining payload fields
(`canon`, `modreward`, bounties, credits, links, phases, timestamps, pending
values) are never inspected by any embedded operation and are omitted from the
record.  `portrait_files`/`sprite_files` are `HashMap<String, bool>` and
`subgroups` is `HashMap<GroupId, Group>` in the source; both are embedded as
association lists (see the header note). -/

inductive Group : Type where
  | mk
      (name : String)
      (portrait_files : List (String × Bool))
      (sprite_files : List (String × Bool))
      (subgroups : List (Int × Group)) : Group
deriving Repr

def Group.name : Group → String
  | .mk n _ _ _ => n

def Group.portrait_files : Group → List (String × Bool)
  | .mk _ p _ _ => p

def Group.sprite_files : Group → List (String × Bool)
  | .mk _ _ s _ => s

def Group.subgroups : Group → List (Int × Group)
  | .mk _ _ _ s => s

/-- `tracker.json` top level: `HashMap<GroupId, Group>`. -/
def Tracker : Type := List (Int × Group)

/-- `HashMap::get` on an embedded map: first entry with the key. -/
def mapGet (m : List (Int × Group)) (key : Int) : Option Group :=
  (m.find? (fun p => p.1 == key)).map (·.2)

/-- `src/datafiles/tracker.rs::FormMatch`. -/
inductive FormMatch where
  | exact (n : Int)
  | fallback (n : Int)
deriving DecidableEq, Repr

/-- `src/datafiles/tracker.rs::form_match_combinations` (lines 129-157): fold
over the needle; `Exact(id)` appends `id` to every accumulated combination;
`Fallback(id)` first copies the accumulated combinations, appends `id` to the
originals and `0` to the copies, then appends the copies after the originals. -/
def form_match_combinations (needle : List FormMatch) : List (List Int) :=
  needle.foldl
    (fun combinations fm =>
      match fm with
      | .exact id => combinations.map (· ++ [id])
      | .fallback id => combinations.map (· ++ [id]) ++ combinations.map (· ++ [0]))
    [[]]

/-- The trailing-zero collapse inside `find_form` (lines 193-214): drop the
longest all-zero suffix; if nothing remains, the path becomes `[0]`. -/
def collapsePath (possibility : List Int) : List Int :=
  let collapsed := (possibility.reverse.dropWhile (· == 0)).reverse
  if collapsed.isEmpty then [0] else collapsed

/-- `src/datafiles/tracker.rs::MonsterFormCollector::find_form_step`
(lines 227-278).  Non-final path elements must resolve to an existing subgroup;
the final element `0` accepts the current group when reached, any other final
element must resolve to a subgroup.  Non-empty group names are accumulated as
breadcrumbs. -/
def find_form_step (current_group : Group) :
    List Int → List Int → List String → Option (List Int × List String × Group)
  | [], _, _ => none
  | [current], collected, collected_names =>
      if current == 0 then some (collected, collected_names, current_group)
      else
        match mapGet current_group.subgroups current with
        | some sub_group =>
            some (collected ++ [current],
              collected_names ++ (if sub_group.name.isEmpty then [] else [sub_group.name]),
              sub_group)
        | none => none
  | current :: rest₁ :: rest, collected, collected_names =>
      match mapGet current_group.subgroups current with
      | some sub_group =>
          find_form_step sub_group (rest₁ :: rest) (collected ++ [current])
            (collected_names ++ (if sub_group.name.isEmpty then [] else [sub_group.name]))
      | none => none

/-- `src/datafiles/tracker.rs::MonsterFormCollector::find_form`
(lines 189-225): expand the needle into combinations, collapse the trailing
zeros of each, and return the first successful traversal in generation order. -/
def find_form (root : Group) (needle : List FormMatch) :
    Option (List Int × List String × Group) :=
  (form_match_combinations needle).findSome?
    (fun possibility => find_form_step root (collapsePath possibility) [] [])

/-! ## Snapshot loading and refresh (src/sprite_collab.rs)

`refresh_data_internal_do` (lines 321-417) opens/updates the git repository,
then builds `SpriteCollabData::new(read_sprite_config(..), read_tracker(..),
read_credit_names(..))`, validates every reachable `AnimData.xml` via
`try_read_in_anim_data_xml`, and updates the metadata.  The parse results and
the validation outcome are passed in as data; the git plumbing is not needed by
any claim.  Note that the tracker parsed by `read_tracker` is stored in the
snapshot as-is: no code between parsing and publication rewrites any group
(`try_read_in_anim_data_xml` takes the tracker by shared reference and
`Tracker`'s maps are `HashMap`s, which have no order to rewrite). -/

/-- `src/datafiles/sprite_config.rs::SpriteConfig` (the fields the claims
read; completion requirements and the action map are never inspected). -/
structure SpriteConfig where
  portrait_size : Int
  portrait_tile_x : Int
  emotions : List String
  actions : List String
deriving DecidableEq, Repr

/-- `src/sprite_collab.rs::SpriteCollabData`. -/
structure SpriteCollabData where
  sprite_config : SpriteConfig
  tracker : Tracker
  credit_names : List (String × Option String × Option String)

/-- `SpriteCollabData::new` (lines 55-67). -/
def SpriteCollabData.new (sprite_config : SpriteConfig) (tracker : Tracker)
    (credit_names : List (String × Option String × Option String)) : SpriteCollabData :=
  ⟨sprite_config, tracker, credit_names⟩

/-- `src/sprite_collab.rs::refresh_data_internal_do` (data part, lines
383-404): build the snapshot from the three parse results, then fail if the
`AnimData.xml` validation fails.  The tracker is published unchanged. -/
def refresh_data_internal_do (sprite_config : SpriteConfig) (tracker : Tracker)
    (credit_names : List (String × Option String × Option String))
    (animDataXmlValidationOk : Bool) : Except Unit SpriteCollabData :=
  let scd := SpriteCollabData.new sprite_config tracker credit_names
  if animDataXmlValidationOk then Except.ok scd else Except.error ()

/-- Observable server state for `SpriteCollab::refresh`: the published
snapshot, the Redis keyspace (`flushall` empties it) and
`Meta::update_checked_date` (timestamps as abstract `Nat`s).  The snapshot
type is kept abstract (`D` with decidable equality, standing for
`SpriteCollabData: Eq + PartialEq`). -/
structure ServerState (D : Type) where
  current_data : D
  cacheKeys : List String
  update_checked_date : Nat
deriving DecidableEq, Repr

/-- `src/sprite_collab.rs::SpriteCollab::refresh` (lines 175-199), on the path
where the state lock is acquired and the state is `Ready`.  `newData` is the
result of `refresh_data` (`none` = refresh failed; `refresh_data_internal`
then updated only `update_checked_date`, line 315).  On success it computes
`changed = (*lock_data == new_data)` — the source compares with `==`, line
186 — swaps the snapshot in, and invokes `flushall` iff `changed`. -/
def refresh {D : Type} [DecidableEq D] (st : ServerState D) (newData : Option D)
    (now : Nat) : ServerState D :=
  match newData with
  | none => { st with update_checked_date := now }
  | some new_data =>
      let changed : Bool := st.current_data = new_data
      { current_data := new_data
        cacheKeys := if changed then [] else st.cacheKeys
        update_checked_date := now }

/-! ## Read-through cache (src/cache.rs, src/sprite_collab.rs lines 234-281)

`SpriteCollab::cached_may_fail` is the only implementation of
`ScCache::cached_may_fail`.  Its inputs are embedded as data:
* `getResult` — outcome of `redis.get(cache_key)` (`Except` for connection
  errors, `Option String` for hit/miss);
* `decode` — `serde_json::from_str` on the hit payload (its failure is
  converted by `?` into the outer `Self::Error`);
* `encodeOk`/`setOk` — outcomes of `serde_json::to_string` and `redis.set`;
  both failures are logged and swallowed (lines 253-274);
* `producerResult` — the awaited producer output `Result<CacheBehaviour<T>, E>`.

`RedisErr` stands for the outer error type (`anyhow::Error` for
`SpriteCollab`). -/

/-- `src/cache.rs::CacheBehaviour` (also re-exported in sprite_collab.rs). -/
inductive CacheBehaviour (T : Type) where
  | cache (v : T)
  | noCache (v : T)

/-- `SpriteCollab::cached_may_fail`: on hit decode the stored string (decode
failure propagates as the outer error); on miss run the producer; a `Cache`
result is stored best-effort (encode/set failures ignored) and returned, a
`NoCache` result is returned, a producer error becomes `Ok(Err(e))`. -/
def cached_may_fail {RedisErr T E : Type}
    (getResult : Except RedisErr (Option String))
    (decode : String → Except RedisErr T)
    (_encodeOk : Bool) (_setOk : Bool)
    (producerResult : Except E (CacheBehaviour T)) :
    Except RedisErr (Except E T) :=
  match getResult with
  | .error e => .error e
  | .ok (some red_val) =>
      match decode red_val with
      | .error e => .error e
      | .ok v => .ok (.ok v)
  | .ok none =>
      match producerResult with
      | .ok (.cache v) => .ok (.ok v)
      | .ok (.noCache v) => .ok (.ok v)
      | .error e => .ok (.error e)

/-- `src/cache.rs::ScCache::cached` (lines 22-42): wrap the infallible
producer output as `Ok(..)` with `E = Infallible` (embedded as `Empty`), call
`cached_may_fail`, and treat `Ok(Err(_))` as `unreachable_unchecked()` —
embedded as `none` (undefined behaviour if ever reached). -/
def cached {RedisErr T : Type}
    (getResult : Except RedisErr (Option String))
    (decode : String → Except RedisErr T)
    (encodeOk : Bool) (setOk : Bool)
    (producerOutput : CacheBehaviour T) :
    Option (Except RedisErr T) :=
  match cached_may_fail (E := Empty) getResult decode encodeOk setOk
      (Except.ok producerOutput) with
  | .ok (.ok v) => some (.ok v)
  | .ok (.error _) => none
  | .error e => some (.error e)

/-! ## Sprite recolor sheet (src/assets/sprite_sheets.rs)

The atlas layout depends only on each kept frame's pixel dimensions and its
anchor offsets, so a kept frame is embedded as `(width, height, offsets)`.
`width`/`height` are the `u32` dimensions of the cropped frame (`≥ 1` for
every frame `get_sprite_frames` keeps: the tight bounding box of a kept frame
is non-empty, lines 158-168 and 213-220); offsets are `i32` anchor
coordinates, already shifted frame-local (line 211). -/

/-- `src/assets/sprite_sheets.rs::SpriteOffsets` (lines 10-20). -/
structure SpriteOffsets where
  head_x : Int
  head_y : Int
  lhand_x : Int
  lhand_y : Int
  rhand_x : Int
  rhand_y : Int
  center_x : Int
  center_y : Int
deriving DecidableEq, Repr

/-- `SpriteOffsets::combine_extents` (lines 83-88). -/
def combine_extents (t : Int × Int × Int × Int) (b : Int × Int × Int × Int) :
    Int × Int × Int × Int :=
  (min t.1 b.1, min t.2.1 b.2.1, max t.2.2.1 b.2.2.1, max t.2.2.2 b.2.2.2)

/-- `SpriteOffsets::get_bounds` (lines 34-41): combine the four 1×1 anchor
boxes starting from `(10000, 10000, -10000, -10000)`. -/
def SpriteOffsets.get_bounds (o : SpriteOffsets) : Int × Int × Int × Int :=
  let b0 := combine_extents (10000, 10000, -10000, -10000)
    (o.head_x, o.head_y, o.head_x + 1, o.head_y + 1)
  let b1 := combine_extents b0 (o.lhand_x, o.lhand_y, o.lhand_x + 1, o.lhand_y + 1)
  let b2 := combine_extents b1 (o.rhand_x, o.rhand_y, o.rhand_x + 1, o.rhand_y + 1)
  combine_extents b2 (o.center_x, o.center_y, o.center_x + 1, o.center_y + 1)

/-- `src/assets/sprite_sheets.rs::add_to_bounds` (lines 334-339). -/
def add_to_bounds (b : Int × Int × Int × Int) (c : Int × Int) :
    Int × Int × Int × Int :=
  (b.1 + c.1, b.2.1 + c.2, b.2.2.1 + c.1, b.2.2.2 + c.2)

/-- `SpriteOffsets::get_centered_bounds` (lines 74-81): expand the anchor
bounding box symmetrically about `(cx, cy)` and shift it back by `(cx, cy)`. -/
def SpriteOffsets.get_centered_bounds (o : SpriteOffsets) (c : Int × Int) :
    Int × Int × Int × Int :=
  let (x, y, xm, ym) := o.get_bounds
  let min_x := min (x - c.1) (c.1 - xm)
  let min_y := min (y - c.2) (c.2 - ym)
  let max_x := max (c.1 - x) (xm - c.1)
  let max_y := max (c.2 - y) (ym - c.2)
  add_to_bounds (min_x, min_y, max_x, max_y) c

/-- One frame kept by `get_sprite_frames`: the cropped image's dimensions and
its frame-local anchor offsets. -/
structure Frame where
  width : Nat
  height : Nat
  offsets : SpriteOffsets
deriving DecidableEq, Repr

/-- `src/assets/sprite_sheets.rs::round_up_to_mult` (lines 434-437):
`((num - 1) / mult + 1) * mult` in `u32` arithmetic.  (For `num = 0` the
source underflows; all call sites pass `num ≥ 1`, see
`get_sprite_frame_size_from_frames` below.) -/
def round_up_to_mult (num mult : Nat) : Nat :=
  ((num - 1) / mult + 1) * mult

/-- The loop body of `get_sprite_frame_size_from_frames` (lines 417-426). -/
def frame_size_step (acc : Nat × Nat) (f : Frame) : Nat × Nat :=
  let mw := max acc.1 f.width
  let mh := max acc.2 f.height
  let b := f.offsets.get_centered_bounds
    (((f.width / 2 : Nat) : Int), ((f.height / 2 : Nat) : Int))
  (max mw (b.2.2.1 - b.1).toNat, max mh (b.2.2.2 - b.2.1).toNat)

/-- `src/assets/sprite_sheets.rs::get_sprite_frame_size_from_frames`
(lines 413-432): maximum over frame dimensions and centered-anchor bound
dimensions, each maximum rounded up to the next multiple of 2.  The `i32`
bound widths are cast to `u32` (`as u32`); they are always positive (the
anchor bounding box is non-degenerate), so `Int.toNat` is the faithful cast. -/
def get_sprite_frame_size_from_frames (frames : List Frame) : Nat × Nat :=
  let maxes := frames.foldl frame_size_step (0, 0)
  (round_up_to_mult maxes.1 2, round_up_to_mult maxes.2 2)

/-- `(frames.len() as f64).sqrt().ceil() as u32` (line 100), embedded as the
exact integer ceiling of the square root.  (`f64::sqrt` is correctly rounded,
so for every count below `2^50` the floating point expression computes exactly
this value; frame counts are far below that.) -/
def ceil_sqrt (n : Nat) : Nat :=
  if Nat.sqrt n * Nat.sqrt n == n then Nat.sqrt n else Nat.sqrt n + 1

/-- The atlas layout computed by `make_sprite_recolor_sheet` (lines 98-112):
the square side `max_size`, the tile dimensions, and for each frame the
absolute top-left pixel position at which it is copied into the sheet
(`tile_pos + diff_pos` with `diff_pos = frame_size/2 - frame_dim/2` in `u32`
division, lines 103-111). -/
structure AtlasLayout where
  side : Nat
  tileW : Nat
  tileH : Nat
  placements : List (Nat × Nat)
deriving DecidableEq, Repr

/-- The layout part of `make_sprite_recolor_sheet` (lines 98-112). -/
def sprite_recolor_layout (frames : List Frame) : AtlasLayout :=
  let fs := get_sprite_frame_size_from_frames frames
  let max_size := ceil_sqrt frames.length
  { side := max_size
    tileW := fs.1
    tileH := fs.2
    placements := (frames.enum).map (fun fi =>
      let diff_pos_x := fs.1 / 2 - fi.2.width / 2
      let diff_pos_y := fs.2 / 2 - fi.2.height / 2
      let xx := fi.1 % max_size
      let yy := fi.1 / max_size
      (xx * fs.1 + diff_pos_x, yy * fs.2 + diff_pos_y)) }

/-- The debug-dump loop at the top of `make_sprite_recolor_sheet`
(lines 95-97): for each kept frame, in order, `frame.save("/workdir/{idx}.png")`
followed by `.unwrap()`.  `saveOk` is the environment's answer for each
attempted path; the trace of successfully written paths is accumulated and a
failed save aborts everything (`unwrap` panics), embedded as `none`. -/
def frame_save_loop (saveOk : String → Bool) : Nat → List Frame → Option (List String)
  | _, [] => some []
  | idx, _ :: rest =>
      let path := "/workdir/" ++ toString idx ++ ".png"
      if saveOk path then (frame_save_loop saveOk (idx + 1) rest).map (path :: ·)
      else none

/-- `src/assets/sprite_sheets.rs::make_sprite_recolor_sheet` (lines 91-115)
after frame extraction: run the save loop over the kept frames (panic =
`none`), then compute the atlas layout.  The result carries the write trace
and the layout. -/
def make_sprite_recolor_sheet (frames : List Frame) (saveOk : String → Bool) :
    Option (List String × AtlasLayout) :=
  match frame_save_loop saveOk 0 frames with
  | none => none
  | some trace => some (trace, sprite_recolor_layout frames)

/-! ## Portrait sheet (src/assets/portrait_sheets.rs)

`width_sheet` is `portrait_tile_x: i32` and the column/row counters are `i32`;
they are always non-negative (`idx as i32 % width_sheet` with positive
`width_sheet`), so they are embedded as `Nat`.  `emotion_positions` is a
`HashMap<String, (i32, i32)>` read only through `contains_key`/`get`, embedded
as an association list with insert-overwrites semantics. -/

def insertPos (m : List (String × Nat × Nat)) (k : String) (v : Nat × Nat) :
    List (String × Nat × Nat) :=
  if m.any (fun p => p.1 == k) then m.map (fun p => if p.1 == k then (k, v) else p)
  else m ++ [(k, v)]

def lookupPos (m : List (String × Nat × Nat)) (k : String) : Option (Nat × Nat) :=
  (m.find? (fun p => p.1 == k)).map (·.2)

/-- `src/assets/portrait_sheets.rs::PortraitSheetEmotions` (lines 12-16). -/
structure PortraitSheetEmotions where
  emotion_positions : List (String × Nat × Nat)
  max_width : Nat
  max_height : Nat
deriving DecidableEq, Repr

/-- The loop body of `PortraitSheetEmotions::new` (lines 23-30), with the
running index made explicit (the source uses `enumerate`). -/
def pse_new_go (width_sheet : Nat) (idx current_row max_width : Nat)
    (positions : List (String × Nat × Nat)) :
    List String → List (String × Nat × Nat) × Nat × Nat
  | [] => (positions, max_width, current_row)
  | emotion :: rest =>
      let current_col := idx % width_sheet
      let positions := insertPos positions emotion (current_col, current_row)
      let current_row' := if current_col == width_sheet - 1 then current_row + 1 else current_row
      pse_new_go width_sheet (idx + 1) current_row' (max max_width (current_col + 1))
        positions rest

/-- `src/assets/portrait_sheets.rs::PortraitSheetEmotions::new` (lines 18-37).
Note `max_height` is the final value of the `current_row` counter, which is
incremented only when a row is completed (`current_col == width_sheet - 1`). -/
def PortraitSheetEmotions.new (emotion_cfg : List String) (width_sheet : Nat) :
    PortraitSheetEmotions :=
  let r := pse_new_go width_sheet 0 0 0 [] emotion_cfg
  ⟨r.1, r.2.1, r.2.2⟩

/-- `src/assets/portrait_sheets.rs::do_make_portrait_sheet` (lines 62-87).
`openImg` gives, per emotion name, the dimensions of `{emotion}.png` when the
file opens (`none` = `image::open` failed, silently skipped).  A successful
copy is recorded as `(emotion, dst_x, dst_y)`; `copy_from` fails — and with it
the whole build through `?` — when the portrait does not fit inside the canvas
at its destination. -/
def do_make_portrait_sheet (padding_top : Nat)
    (portrait_files : List (String × Bool)) (emotions : PortraitSheetEmotions)
    (openImg : String → Option (Nat × Nat)) (portrait_size : Nat) :
    Except Unit ((Nat × Nat) × List (String × Nat × Nat)) :=
  (portrait_files.foldlM (m := Except Unit)
    (fun acc entry =>
      match lookupPos emotions.emotion_positions entry.1 with
      | none => Except.ok acc
      | some (x, y) =>
          match openImg entry.1 with
          | none => Except.ok acc
          | some (iw, ih) =>
              if x * portrait_size + iw ≤ emotions.max_width * portrait_size ∧
                  y * portrait_size + padding_top + ih
                    ≤ emotions.max_height * portrait_size + padding_top then
                Except.ok (acc ++ [(entry.1, x * portrait_size, y * portrait_size + padding_top)])
              else Except.error ())
    []).map
    (fun c => ((emotions.max_width * portrait_size,
      emotions.max_height * portrait_size + padding_top), c))

/-! ## Credit id parsing (sc-common/src/credit_row.rs)

`parse_credit_id` searches the input with the regex `<@!(\d+)>` (unanchored,
compiled once) and returns the first capture group when a match exists,
otherwise the input unchanged.  Strings are embedded as `List Char`.  A match
of `<@!(\d+)>` exists at a position exactly when the text there starts with
`<@!`, followed by a non-empty maximal digit run whose following character is
`>` (the greedy `\d+` can only stop at a non-digit, so backtracking cannot
produce other matches).  `\d` is embedded as `Char.isDigit`; the inputs the
claims are about are ASCII. -/

/-- Attempt a match of `<@!(\d+)>` anchored at the head of the text. -/
def matchMentionAt : List Char → Option (List Char)
  | a :: b :: c :: rest =>
      if a = '<' ∧ b = '@' ∧ c = '!' then
        let ds := rest.takeWhile Char.isDigit
        if ds.isEmpty then none
        else
          match rest.dropWhile Char.isDigit with
          | z :: _ => if z = '>' then some ds else none
          | [] => none
      else none
  | _ => none

/-- Leftmost match of `<@!(\d+)>` (`Regex::captures`). -/
def findMention : List Char → Option (List Char)
  | [] => none
  | c :: rest =>
      match matchMentionAt (c :: rest) with
      | some ds => some ds
      | none => findMention rest

/-- `sc-common/src/credit_row.rs::parse_credit_id` (lines 28-38): if the regex
matches, return the digits of the first capture; otherwise return the input. -/
def parse_credit_id (credit_id_raw : List Char) : List Char :=
  match findMention credit_id_raw with
  | some ds => ds
  | none => credit_id_raw

/-- `sc-common/src/credit_row.rs::cleanup_discord_id`: the serde field adapter
around `parse_credit_id`, as used on every `credit_id` field. -/
def cleanup_discord_id (s : String) : String :=
  ⟨parse_credit_id s.toList⟩

/-- Spec-side occurrence predicate, written from the regex `<@!(\d+)>`
itself rather than from the scanner: the text contains (anywhere) a full
mention — `<@!`, a non-empty run of digits, `>`.  The theorems below relate
`parse_credit_id` to this structural notion. -/
def containsMention (s : List Char) : Prop :=
  ∃ pre id post, s = pre ++ '<' :: '@' :: '!' :: (id ++ '>' :: post)
    ∧ id ≠ [] ∧ ∀ c ∈ id, c.isDigit = true

/-! ## Credit resolver (sc-activity-rec/src)

Timestamps: chrono `DateTime<Utc>`/`NaiveDateTime` values are embedded as
`Nat` keys via `dtKey` below, which is strictly monotone with respect to
chronological order on in-range field values (month ≤ 12 < 16, day ≤ 31 < 32,
hour < 32, minute < 64, second ≤ 61 < 64, nanoseconds < 2^30), so chrono's
`<` on datetimes is `<` on keys.

The CSV layer (`csv::ReaderBuilder` with tab delimiter, no headers) is
embedded at the record level: a file is a `List (List String)` of tab-split
rows.  Deserializing a struct from a headerless record maps the record fields
positionally onto the struct fields; extra record fields are ignored, a
missing field is a non-`Message` deserialize error, and a field-level parse
failure (`serde::de::Error::custom`) is a `Message`-kind deserialize error —
only the latter triggers the old-format retry in `old_credit_lookup`
(lib.rs lines 623-645). -/

/-- Chronological key for a datetime with the given fields. -/
def dtKey (y mo d h mi s ns : Nat) : Nat :=
  (((((y * 16 + mo) * 32 + d) * 32 + h) * 64 + mi) * 64 + s) * 1073741824 + ns

/-- Split a character list at every occurrence of `sep`, keeping empty
segments (the semantics of Rust's `split` and of `String::splitOn` for a
single-character separator). -/
def splitOnChar (sep : Char) : List Char → List (List Char)
  | [] => [[]]
  | c :: rest =>
      let r := splitOnChar sep rest
      if c = sep then [] :: r
      else
        match r with
        | [] => [[c]]
        | h :: t => (c :: h) :: t

/-- Decimal digit-string parsing (the semantics of `str::parse::<u32>` /
`String.toNat?` on non-empty all-digit input; anything else fails). -/
def digitsToNat (l : List Char) : Option Nat :=
  if l.isEmpty then none
  else
    l.foldl
      (fun acc c =>
        match acc with
        | none => none
        | some n => if c.isDigit then some (n * 10 + (c.toNat - '0'.toNat)) else none)
      (some 0)

/-- Rust `s.split(',')` over a field, as used by `parse_items`. -/
def splitItems (s : String) : List String :=
  (splitOnChar ',' s.toList).map (fun l => (⟨l⟩ : String))

/-- chrono `NaiveDateTime::parse_from_str(s, "%Y-%m-%d %H:%M:%S%.f")`
(`parse_time` in both credits-file modules): `YYYY-MM-DD HH:MM:SS` with an
optional `.fraction` (up to 9 digits, right-padded to nanoseconds).  Field
range validation is the in-range check above (full days-in-month validation is
elided; every input considered here is a valid date). -/
def parse_time (s : String) : Option Nat :=
  match splitOnChar ' ' s.toList with
  | [dateS, timeS] =>
      match splitOnChar '-' dateS, splitOnChar ':' timeS with
      | [ys, mos, ds], [hs, mis, ss] =>
          let sp :=
            match splitOnChar '.' ss with
            | [a] => (a, ['0'])
            | [a, f] => (a, (f ++ ['0', '0', '0', '0', '0', '0', '0', '0', '0']).take 9)
            | _ => ([], [])
          match digitsToNat ys, digitsToNat mos, digitsToNat ds, digitsToNat hs,
              digitsToNat mis, digitsToNat sp.1, digitsToNat sp.2 with
          | some y, some mo, some d, some h, some mi, some sec, some ns =>
              if 1 ≤ mo ∧ mo ≤ 12 ∧ 1 ≤ d ∧ d ≤ 31 ∧ h ≤ 23 ∧ mi ≤ 59 ∧ sec ≤ 59 then
                some (dtKey y mo d h mi sec ns)
              else none
          | _, _, _, _, _, _, _ => none
      | _, _ => none
  | _ => none

/-- `sc-activity-rec/src/lib.rs::CREDIT_CONSISTENCY_TIME`:
2022-05-07 19:29:49 UTC. -/
def CREDIT_CONSISTENCY_TIME : Nat := dtKey 2022 5 7 19 29 49 0

/-- The two deserialize-error kinds that `old_credit_lookup` distinguishes. -/
inductive CsvErrKind where
  | message
  | other
deriving DecidableEq, Repr

/-- `sc-activity-rec/src/local_credits_file.rs::LocalCreditRow` (lines 64-72):
three fields `date`, `credit_id`, `items` — deserialized positionally from the
record, extra record fields ignored. -/
structure ARLocalCreditRow where
  date : Nat
  credit_id : String
  items : List String
deriving DecidableEq, Repr

def parse_ar_local_credit_row (record : List String) : Except CsvErrKind ARLocalCreditRow :=
  match record with
  | dateS :: cidS :: itemsS :: _ =>
      match parse_time dateS with
      | some d => .ok ⟨d, cleanup_discord_id cidS, splitItems itemsS⟩
      | none => .error .message
  | _ => .error .other

/-- `sc-activity-rec/src/local_credits_file.rs::LocalCreditRowOld`
(lines 74-80): two fields `date`, `credit_id`. -/
def parse_ar_local_credit_row_old (record : List String) :
    Except CsvErrKind (Nat × String) :=
  match record with
  | dateS :: cidS :: _ =>
      match parse_time dateS with
      | some d => .ok (d, cleanup_discord_id cidS)
      | none => .error .message
  | _ => .error .other

/-- The credits map `HashMap<String, String>`: insert overwrites. -/
def insertCredit (m : List (String × String)) (k v : String) : List (String × String) :=
  if m.any (fun p => p.1 == k) then m.map (fun p => if p.1 == k then (k, v) else p)
  else m ++ [(k, v)]

def lookupCredit (m : List (String × String)) (k : String) : Option String :=
  (m.find? (fun p => p.1 == k)).map (·.2)

/-- `HashMap::remove`'s effect on the map (the resolver removes the asset name
before probing `"?"`). -/
def eraseCredit (m : List (String × String)) (k : String) : List (String × String) :=
  m.filter (fun p => p.1 != k)

/-- `sc-activity-rec/src/local_credits_file.rs::do_get_credits` (lines 24-48):
iterate rows in file order; with an `until` bound, stop before the first row
strictly after it; later entries for the same item overwrite earlier ones. -/
def do_get_credits (records : List (List String)) (untilT : Option Nat) :
    Except CsvErrKind (List (String × String)) :=
  go records []
where
  go : List (List String) → List (String × String) → Except CsvErrKind (List (String × String))
  | [], acc => .ok acc
  | r :: rest, acc =>
      match parse_ar_local_credit_row r with
      | .error e => .error e
      | .ok row =>
          match untilT with
          | some u =>
              if u < row.date then .ok acc
              else go rest (row.items.foldl (fun m item => insertCredit m item row.credit_id) acc)
          | none =>
              go rest (row.items.foldl (fun m item => insertCredit m item row.credit_id) acc)

/-- `get_latest_credits` (lines 12-14). -/
def get_latest_credits (records : List (List String)) :
    Except CsvErrKind (List (String × String)) :=
  do_get_credits records none

/-- `get_credits_until` (lines 17-22). -/
def get_credits_until (records : List (List String)) (untilT : Nat) :
    Except CsvErrKind (List (String × String)) :=
  do_get_credits records (some untilT)

/-- `get_last_credits_old_format` (lines 51-62): only the final record's parse
result matters (`deserialize().last().transpose()?`). -/
def get_last_credits_old_format (records : List (List String)) :
    Except CsvErrKind (Option String) :=
  match records.getLast? with
  | none => .ok none
  | some r => (parse_ar_local_credit_row_old r).map (fun p => some p.2)

/-- `sc-activity-rec/src/lib.rs::CreditCertainty` (lines 302-306). -/
inductive CreditCertainty where
  | certain (id : String)
  | maybe (id : String)
deriving DecidableEq, Repr

/-- `CreditCertainty::certain` (lines 315-320). -/
def CreditCertainty.isCertain : CreditCertainty → Bool
  | .certain _ => true
  | .maybe _ => false

/-- `Activities::record_activity` (lines 483-486):
`author_uncertain = !cid.certain()`. -/
def author_uncertain (c : CreditCertainty) : Bool :=
  !c.isCertain

/-- The error cases of `ActivityRecError` the lookups can produce. -/
inductive LookupErr where
  | gitError
  | missingCredits
  | dataRead
deriving DecidableEq, Repr

/-- The inputs of one `get_credit_id` call, with the two `credits.txt` reads
supplied as data: `commitCreditsFile` is the file at the commit's own tree,
`headCreditsFile` the file at the current HEAD (`none` = the git read
fails, e.g. the file does not exist in that tree). -/
structure CreditLookupInput where
  commitId : String
  monsterIdx : Int
  pathToForm : List Int
  assetName : String
  commitTime : Nat
  commitCreditsFile : Option (List (List String))
  headCreditsFile : Option (List (List String))

/-- `sc-activity-rec/src/lib.rs::Activities::old_credit_lookup`
(lines 583-651): hard-coded exceptions, then the latest-author map from the
commit's own `credits.txt` (Certain on the asset name, Maybe on `"?"`), with
the old-format retry on a `Message`-kind deserialize error. -/
def old_credit_lookup (i : CreditLookupInput) : Except LookupErr CreditCertainty :=
  if i.commitId == "99a41c3c379300aefa42f95568b658c3b9986057" && i.monsterIdx == 222
      && i.pathToForm == [1] then
    .ok (.certain "356635814668664832")
  else if i.commitId == "366d2dbceb2736bd5316c9e492ddfa6c7cdc8fab" && i.monsterIdx == 150
      && i.pathToForm == [2, 1] then
    .ok (.certain "593113130213572610")
  else
    match i.commitCreditsFile with
    | none => .error .gitError
    | some records =>
        match get_latest_credits records with
        | .ok m =>
            match lookupCredit m i.assetName with
            | some cid => .ok (.certain cid)
            | none =>
                match lookupCredit (eraseCredit m i.assetName) "?" with
                | some q => .ok (.maybe q)
                | none => .error .missingCredits
        | .error .message =>
            match get_last_credits_old_format records with
            | .ok (some cid) => .ok (.maybe cid)
            | .ok none => .error .missingCredits
            | .error _ => .error .dataRead
        | .error .other => .error .dataRead

/-- `sc-activity-rec/src/lib.rs::Activities::new_credit_lookup`
(lines 517-575): HEAD `credits.txt` up to the commit time (Certain on asset
name, Maybe on `"?"`), falling back to the old method, then to the latest
HEAD snapshot with Maybe results, then `MissingCredits`. -/
def new_credit_lookup (i : CreditLookupInput) : Except LookupErr CreditCertainty :=
  match i.headCreditsFile with
  | none => old_credit_lookup i
  | some headRecords =>
      match get_credits_until headRecords i.commitTime with
      | .error _ => .error .missingCredits
      | .ok m =>
          match lookupCredit m i.assetName with
          | some cid => .ok (.certain cid)
          | none =>
              match lookupCredit (eraseCredit m i.assetName) "?" with
              | some q => .ok (.maybe q)
              | none =>
                  match old_credit_lookup i with
                  | .ok v => .ok v
                  | .error _ =>
                      match get_latest_credits headRecords with
                      | .ok m2 =>
                          match lookupCredit m2 i.assetName with
                          | some cid => .ok (.maybe cid)
                          | none =>
                              match lookupCredit (eraseCredit m2 i.assetName) "?" with
                              | some q => .ok (.maybe q)
                              | none => .error .missingCredits
                      | .error _ => .error .missingCredits

/-- `Activities::get_credit_id` (lines 491-506): strictly after
`CREDIT_CONSISTENCY_TIME` use the new flow, otherwise the old flow. -/
def get_credit_id (i : CreditLookupInput) : Except LookupErr CreditCertainty :=
  if CREDIT_CONSISTENCY_TIME < i.commitTime then new_credit_lookup i
  else old_credit_lookup i

/-- `src/src/datafiles/local_credits_file.rs::LocalCreditRow` (lines 63-74):
the five-field new-format row used by the main crate for the same
`credits.txt` files (`date`, `credit_id`, `obsolete`, `license`, `items`). -/
structure MainLocalCreditRow where
  date : Nat
  credit_id : String
  obsolete : Bool
  license : String
  items : List String
deriving DecidableEq, Repr

def parse_main_local_credit_row (record : List String) :
    Except CsvErrKind MainLocalCreditRow :=
  match record with
  | dateS :: cidS :: obS :: licS :: itemsS :: _ =>
      match parse_time dateS with
      | some d => .ok ⟨d, cleanup_discord_id cidS, obS == "OLD", licS, splitItems itemsS⟩
      | none => .error .message
  | _ => .error .other

/-! ## Concrete instances used by the scenario theorems -/

/-- The primary value of a form matcher (`Exact(n)` and `Fallback(n)` both
try `n` first). -/
def formMatchPrimary : FormMatch → Int
  | .exact n => n
  | .fallback n => n

/-- C7 scenario: a monster whose subgroup 1 has a subgroup 0 but no
subgroup 2. -/
def demoSub0 : Group := .mk "" [] [] []

def demoSub1 : Group := .mk "FormA" [] [] [(0, demoSub0)]

def demoMonster : Group := .mk "Base" [] [] [(1, demoSub1)]

/-- All-zero anchor offsets (every anchor at the frame origin). -/
def zeroOff : SpriteOffsets := ⟨0, 0, 0, 0, 0, 0, 0, 0⟩

/-- C6 scenario: a loaded group whose `sprite_files` map yields its entries
in the order Attack, Idle, Walk, Sleep. -/
def c6group : Group :=
  .mk "Pikachu" [] [("Attack", false), ("Idle", true), ("Walk", false), ("Sleep", true)] []

def c6config : SpriteConfig :=
  { portrait_size := 40, portrait_tile_x := 5, emotions := [],
    actions := ["Idle", "Walk", "Attack"] }

/-- C3 scenario: the single new-format credits row
`2022-05-01 12:00:00 <TAB> 123 <TAB> false <TAB> Unknown <TAB> Happy,Sad`. -/
def c3row : List String := ["2022-05-01 12:00:00", "123", "false", "Unknown", "Happy,Sad"]

/-- C3 scenario: a commit dated 2022-05-07T19:29:50Z (one second after the
cutover) touching an asset named "Happy", with the row above as the
`credits.txt` both at HEAD and at the commit's own tree.  The commit id and
form coordinates avoid the two hard-coded exceptions. -/
def c3input : CreditLookupInput :=
  { commitId := "0000000000000000000000000000000000000000"
    monsterIdx := 0
    pathToForm := []
    assetName := "Happy"
    commitTime := dtKey 2022 5 7 19 29 50 0
    commitCreditsFile := some [c3row]
    headCreditsFile := some [c3row] }

/-! # Theorems -/

/-! ### C1 — refresh / cache flush -/

/-- C1: the claim says a successful `refresh()` whose new snapshot differs
from the published one clears the KV cache, and one whose snapshot is equal
leaves the cache alone.  The source computes `changed = (*lock_data ==
&new_data)` (sprite_collab.rs line 186) — equality, not inequality — so it
does the exact opposite: here, refreshing from snapshot `0` to the different
snapshot `1` keeps the cache key, while refreshing to the equal snapshot `0`
flushes the cache.  (Evaluation of the embedded code at the failing input;
the claim is right about the intent — the variable is named `changed` and the
spec describes a flush on difference — and the code inverts it.) -/
theorem refresh_flushes_only_when_snapshot_unchanged :
    (refresh (D := Nat) ⟨0, ["sprite_sheet|25/[]"], 5⟩ (some 1) 9).cacheKeys
        = ["sprite_sheet|25/[]"] ∧
    (refresh (D := Nat) ⟨0, ["sprite_sheet|25/[]"], 5⟩ (some 1) 9).current_data = 1 ∧
    (refresh (D := Nat) ⟨0, ["sprite_sheet|25/[]"], 5⟩ (some 0) 9).cacheKeys = [] ∧
    (refresh (D := Nat) ⟨0, ["sprite_sheet|25/[]"], 5⟩ (some 1) 9).update_checked_date = 9 := by
  refine ⟨rfl, rfl, rfl, rfl⟩

/-! ### C6 — no sort step after loading -/

/-- C6 counterexample: the claim says the loader rewrites every group's
`sprite_files` so that config-declared actions iterate first, in config
order.  No such step exists: `refresh_data_internal_do` publishes the tracker
exactly as `read_tracker` parsed it (`sprite_files` is a `HashMap<String,
bool>`, and nothing between parsing and publication touches it).  For the
claim's own instance — `config.actions = ["Idle","Walk","Attack"]` and a
group whose map yields Attack, Idle, Walk, Sleep — the published iteration
order is still Attack, Idle, Walk, Sleep, not Idle, Walk, Attack, Sleep. -/
theorem tracker_files_not_sorted_on_load :
    refresh_data_internal_do c6config [(25, c6group)] [] true
      = .ok (SpriteCollabData.new c6config [(25, c6group)] []) ∧
    ((SpriteCollabData.new c6config [(25, c6group)] []).tracker.map
        (fun p => p.2.sprite_files.map (·.1)))
      = [["Attack", "Idle", "Walk", "Sleep"]] ∧
    ["Attack", "Idle", "Walk", "Sleep"] ≠ ["Idle", "Walk", "Attack", "Sleep"] := by
  refine ⟨rfl, rfl, by decide⟩

/-- C6 amended: the data loader applies no reordering at all — on a
successful load the published snapshot holds the parsed config, tracker and
credit names unchanged (so `sprite_files`/`portrait_files` iterate in
whatever arbitrary order the `HashMap` yields, not in config order), and a
failed `AnimData.xml` validation rejects the snapshot. -/
theorem loader_publishes_tracker_unchanged (cfg : SpriteConfig) (tracker : Tracker)
    (credits : List (String × Option String × Option String)) :
    refresh_data_internal_do cfg tracker credits true
      = .ok (SpriteCollabData.new cfg tracker credits) ∧
    (SpriteCollabData.new cfg tracker credits).tracker = tracker ∧
    refresh_data_internal_do cfg tracker credits false = .error () := by
  refine ⟨rfl, rfl, rfl⟩

/-! ### C7 — form resolution with fallback -/

theorem form_match_combinations_head (needle : List FormMatch) :
    ∀ (h : List Int) (t : List (List Int)),
      (List.foldl
        (fun combinations fm =>
          match fm with
          | FormMatch.exact id => combinations.map (· ++ [id])
          | FormMatch.fallback id =>
              combinations.map (· ++ [id]) ++ combinations.map (· ++ [0]))
        (h :: t) needle).head? = some (h ++ needle.map formMatchPrimary) := by
  induction needle with
  | nil => intro h t; simp
  | cons fm rest ih =>
      intro h t
      cases fm with
      | exact id =>
          simpa [formMatchPrimary, List.foldl_cons] using ih (h ++ [id]) (t.map (· ++ [id]))
      | fallback id =>
          simpa [formMatchPrimary, List.foldl_cons] using
            ih (h ++ [id]) (t.map (· ++ [id]) ++ (h :: t).map (· ++ [0]))

/-- C7: `find_form` expands the needle into combinations where `Fallback(n)`
branches into `Exact(n)` then `Exact(0)` (the first combination always takes
every matcher's primary value), collapses trailing zeros of each combination
keeping at least one element, and returns the first successful traversal in
generation order.  On the scenario tracker — subgroup 1 with a subgroup 0 but
no subgroup 2 — `find_form [Exact(1), Fallback(2)]` expands to `[[1,2],
[1,0]]`, the `[1,2]` traversal fails, `[1,0]` collapses to `[1]`, and the
collapsed path `[1]` is returned. -/
theorem find_form_fallback_example :
    find_form demoMonster [FormMatch.exact 1, FormMatch.fallback 2]
      = some ([1], ["FormA"], demoSub1) ∧
    form_match_combinations [FormMatch.exact 1, FormMatch.fallback 2] = [[1, 2], [1, 0]] ∧
    find_form_step demoMonster (collapsePath [1, 2]) [] [] = none ∧
    collapsePath [1, 0] = [1] ∧
    (∀ needle : List FormMatch,
      (form_match_combinations needle).head? = some (needle.map formMatchPrimary)) := by
  refine ⟨rfl, rfl, rfl, rfl, ?_⟩
  intro needle
  simpa [form_match_combinations] using form_match_combinations_head needle [] []

/-! ### C2 — recolor routes and canonical form variants -/

/-- C2 counterexample: the claim says sprite-recolor requests resolve the
form via the shiny canonical variant (index 1 forced to 1, padded to length
≥ 2).  For the requested path `[3, 0]` the resolution path the handler
actually computes is `[3]` — `force_non_shiny_group` — while the shiny
variant is `[3, 1]`. -/
theorem sprite_recolor_resolution_not_shiny :
    formPathForResolution AssetType.spriteRecolorSheet [3, 0] = [3] ∧
    force_shiny_group [3, 0] = [3, 1] ∧
    ([3] : List Int) ≠ [3, 1] := by
  refine ⟨rfl, rfl, by decide⟩

theorem head?_dropWhile_false {α : Type} (p : α → Bool) (l : List α) :
    ∀ a, (l.dropWhile p).head? = some a → p a = false := by
  induction l with
  | nil => simp
  | cons x xs ih =>
      intro a
      rw [List.dropWhile_cons]
      split
      · exact ih a
      · intro h
        simp only [List.head?_cons, Option.some.injEq] at h
        subst h
        simpa using ‹¬ p x = true›

/-- C2 amended: both recolor asset types (portrait-recolor and
sprite-recolor) resolve the form through the non-shiny canonical variant —
index 1 forced to 0 when present, trailing zeros stripped (so the result is a
prefix of the index-1-zeroed path with no trailing zero left); the shiny
variant (index 1 forced to 1, path padded to length ≥ 2) is used only when
generating recolor URLs. -/
theorem recolor_resolution_uses_non_shiny (p : List Int) :
    formPathForResolution AssetType.spriteRecolorSheet p = force_non_shiny_group p ∧
    formPathForResolution AssetType.portraitRecolorSheet p = force_non_shiny_group p ∧
    force_non_shiny_group p <+: (if 2 ≤ p.length then p.set 1 0 else p) ∧
    (∀ a, (force_non_shiny_group p).getLast? = some a → a ≠ 0) ∧
    (2 ≤ (force_non_shiny_group p).length → (force_non_shiny_group p)[1]? = some 0) ∧
    2 ≤ (formPathForRecolorUrl p).length ∧ (formPathForRecolorUrl p)[1]? = some 1 := by
  have hq : force_non_shiny_group p
      = ((if 2 ≤ p.length then p.set 1 0 else p).reverse.dropWhile (· == 0)).reverse := rfl
  have hpre : force_non_shiny_group p <+: (if 2 ≤ p.length then p.set 1 0 else p) := by
    rw [hq]
    have h1 := List.dropWhile_suffix (l := (if 2 ≤ p.length then p.set 1 0 else p).reverse)
      (fun x : Int => x == 0)
    have h2 := List.reverse_prefix.mpr h1
    simpa using h2
  refine ⟨rfl, rfl, hpre, ?_, ?_, ?_⟩
  · intro a ha
    rw [hq, List.getLast?_reverse] at ha
    have := head?_dropWhile_false (fun x : Int => x == 0) _ a ha
    simpa using this
  · intro hlen
    obtain ⟨t, ht⟩ := hpre
    have hclen : 2 ≤ (if 2 ≤ p.length then p.set 1 0 else p).length := by
      rw [← ht]
      simp only [List.length_append]
      omega
    have hplen : 2 ≤ p.length := by
      by_contra hcon
      rw [if_neg hcon] at hclen
      exact hcon hclen
    have h1 : (force_non_shiny_group p)[1]?
        = (if 2 ≤ p.length then p.set 1 0 else p)[1]? := by
      rw [← ht, List.getElem?_append_left (by omega)]
    rw [h1, if_pos hplen]
    rw [List.getElem?_set]
    simp only [if_pos rfl]
    have : 1 < p.length := by omega
    simp [this]
  · unfold formPathForRecolorUrl force_shiny_group
    by_cases h2 : 2 ≤ p.length
    · rw [if_pos h2]
      constructor
      · simpa using h2
      · rw [List.getElem?_set]
        have : 1 < p.length := by omega
        simp [this]
    · rw [if_neg h2]
      by_cases h1 : p.length == 1
      · rw [if_pos h1]
        have hlen1 : p.length = 1 := by simpa using h1
        constructor
        · simp [hlen1]
        · rw [List.getElem?_append_right (by omega)]
          simp [hlen1]
      · rw [if_neg h1]
        exact ⟨by decide, by decide⟩

/-! ### C8 — Discord mention stripping -/

/-- C8 counterexample: the claim says `<@id>` mentions (without the `!`) are
also stripped to the bare id; the compiled regex is `<@!(\d+)>`, so
`"<@123>"` is returned unchanged rather than as `"123"`. -/
theorem plain_discord_mention_not_stripped :
    parse_credit_id "<@123>".toList = "<@123>".toList ∧
    "<@123>".toList ≠ "123".toList := by
  refine ⟨by decide, by decide⟩

theorem takeWhile_append_of_all {p : Char → Bool} :
    ∀ (xs ys : List Char), (∀ c ∈ xs, p c = true) →
      (xs ++ ys).takeWhile p = xs ++ ys.takeWhile p
        ∧ (xs ++ ys).dropWhile p = ys.dropWhile p := by
  intro xs
  induction xs with
  | nil => intro ys _; exact ⟨rfl, rfl⟩
  | cons c cs ih =>
      intro ys h
      have hc : p c = true := h c (by simp)
      obtain ⟨h1, h2⟩ := ih ys (fun x hx => h x (by simp [hx]))
      constructor
      · simp [List.takeWhile_cons, hc, h1]
      · simp [List.dropWhile_cons, hc, h2]

theorem takeWhile_append_of_stop {p : Char → Bool} :
    ∀ (xs ys : List Char), xs.dropWhile p ≠ [] →
      (xs ++ ys).takeWhile p = xs.takeWhile p
        ∧ (xs ++ ys).dropWhile p = xs.dropWhile p ++ ys := by
  intro xs
  induction xs with
  | nil => intro ys h; simp at h
  | cons c cs ih =>
      intro ys h
      by_cases hc : p c = true
      · rw [List.dropWhile_cons, if_pos hc] at h
        obtain ⟨h1, h2⟩ := ih ys h
        constructor
        · simp [List.takeWhile_cons, hc, h1]
        · simp [List.dropWhile_cons, hc, h2]
      · have hc' : p c = false := by simpa using hc
        constructor
        · simp [List.takeWhile_cons, hc']
        · simp [List.dropWhile_cons, hc']

/-- Shape of a successful anchored match: the text is `<@!` followed by a
non-empty maximal digit run (the capture) whose next character is `>`. -/
theorem matchMentionAt_some :
    ∀ (s ds : List Char), matchMentionAt s = some ds →
      ∃ rest post, s = '<' :: '@' :: '!' :: rest
        ∧ ds = rest.takeWhile Char.isDigit ∧ ds ≠ []
        ∧ rest.dropWhile Char.isDigit = '>' :: post := by
  intro s ds h
  match s with
  | [] => simp [matchMentionAt] at h
  | [a] => simp [matchMentionAt] at h
  | [a, b] => simp [matchMentionAt] at h
  | a :: b :: c :: rest =>
      rw [matchMentionAt] at h
      by_cases hcond : a = '<' ∧ b = '@' ∧ c = '!'
      · rw [if_pos hcond] at h
        obtain ⟨rfl, rfl, rfl⟩ := hcond
        by_cases hds : (rest.takeWhile Char.isDigit).isEmpty
        · rw [if_pos hds] at h
          exact absurd h (by simp)
        · rw [if_neg hds] at h
          cases hdrop : rest.dropWhile Char.isDigit with
          | nil => rw [hdrop] at h; simp at h
          | cons z zs =>
              rw [hdrop] at h
              have h' : (if z = '>' then some (rest.takeWhile Char.isDigit) else none)
                  = some ds := h
              by_cases hz : z = '>'
              · rw [if_pos hz] at h'
                subst hz
                refine ⟨rest, zs, rfl, (by simpa using h'.symm), ?_, hdrop⟩
                intro hempty
                rw [← (by simpa using h' : rest.takeWhile Char.isDigit = ds)] at hempty
                exact hds (by rw [hempty]; rfl)
              · rw [if_neg hz] at h'
                simp at h'
      · rw [if_neg hcond] at h
        simp at h

/-- Scanner soundness: any hit of the scan decomposes the text around a full
mention whose digits are the returned capture. -/
theorem findMention_some_structure :
    ∀ (s ds : List Char), findMention s = some ds →
      ∃ pre post, s = pre ++ '<' :: '@' :: '!' :: (ds ++ '>' :: post)
        ∧ ds ≠ [] ∧ ∀ c ∈ ds, c.isDigit = true := by
  intro s
  induction s with
  | nil => intro ds h; simp [findMention] at h
  | cons c t ih =>
      intro ds h
      rw [findMention] at h
      cases hm : matchMentionAt (c :: t) with
      | some ds' =>
          rw [hm] at h
          have hds : ds' = ds := by simpa using h
          subst hds
          obtain ⟨rest, post, hshape, hdsdef, hne, hdrop⟩ := matchMentionAt_some _ _ hm
          refine ⟨[], post, ?_, hne, ?_⟩
          · have hrest : rest = ds' ++ '>' :: post := by
              conv_lhs => rw [← List.takeWhile_append_dropWhile (p := Char.isDigit) (l := rest)]
              rw [← hdsdef, hdrop]
            rw [List.nil_append, hshape, hrest]
          · intro x hx
            rw [hdsdef] at hx
            exact List.mem_takeWhile_imp hx
      | none =>
          rw [hm] at h
          obtain ⟨pre, post, heq, hne, hdig⟩ := ih ds h
          exact ⟨c :: pre, post, by rw [List.cons_append, heq], hne, hdig⟩

theorem containsMention_cons (c : Char) (s : List Char) (h : containsMention s) :
    containsMention (c :: s) := by
  obtain ⟨pre, id, post, heq, hne, hdig⟩ := h
  exact ⟨c :: pre, id, post, by rw [heq]; rfl, hne, hdig⟩

/-- A full mention at the head of the text always matches, capturing exactly
its digits. -/
theorem mention_head_match (id post : List Char) (hne : id ≠ [])
    (hdig : ∀ c ∈ id, c.isDigit = true) :
    matchMentionAt ('<' :: '@' :: '!' :: (id ++ '>' :: post)) = some id := by
  have hgt : Char.isDigit '>' = false := by decide
  obtain ⟨htake0, hdrop0⟩ := takeWhile_append_of_all id ('>' :: post) hdig
  have htake : (id ++ '>' :: post).takeWhile Char.isDigit = id := by
    rw [htake0, List.takeWhile_cons, if_neg (by simp [hgt])]
    simp
  have hdrop : (id ++ '>' :: post).dropWhile Char.isDigit = '>' :: post := by
    rw [hdrop0, List.dropWhile_cons, if_neg (by simp [hgt])]
  simp [matchMentionAt, htake, hdrop, List.isEmpty_iff, hne]

/-- Scanner completeness: a text containing a full mention always yields a
hit. -/
theorem containsMention_findMention_isSome :
    ∀ (s : List Char), containsMention s → (findMention s).isSome = true := by
  intro s h
  obtain ⟨pre, id, post, rfl, hne, hdig⟩ := h
  induction pre with
  | nil =>
      rw [List.nil_append, findMention, mention_head_match id post hne hdig]
      rfl
  | cons c pre' ih =>
      rw [List.cons_append, findMention]
      cases hm : matchMentionAt (c :: (pre' ++ '<' :: '@' :: '!' :: (id ++ '>' :: post))) with
      | some ds => rfl
      | none => exact ih

/-- Splitting a digits-then-`>` context: if `pre ++ '<'…` equals
`ds ++ '>'…` with `ds` all digits, the whole `ds ++ ['>']` pattern lies
inside `pre` (the `<` can continue neither the digit run nor stand for the
`>`). -/
theorem split_digits_gt :
    ∀ (ds pre post tailM : List Char), (∀ x ∈ ds, x.isDigit = true) →
      pre ++ '<' :: tailM = ds ++ '>' :: post →
      ∃ zs, pre = ds ++ '>' :: zs := by
  intro ds
  induction ds with
  | nil =>
      intro pre post tailM _ h
      cases pre with
      | nil => simp at h
      | cons g gs =>
          simp only [List.cons_append, List.nil_append, List.cons.injEq] at h
          exact ⟨gs, by rw [h.1]; rfl⟩
  | cons a ds' ih =>
      intro pre post tailM hdig h
      cases pre with
      | nil =>
          simp only [List.nil_append, List.cons_append, List.cons.injEq] at h
          have ha : a = '<' := h.1.symm
          have := hdig a (by simp)
          rw [ha] at this
          exact absurd this (by decide)
      | cons g gs =>
          simp only [List.cons_append, List.cons.injEq] at h
          obtain ⟨rfl, h2⟩ := h
          obtain ⟨zs, hzs⟩ := ih gs post tailM (fun x hx => hdig x (by simp [hx])) h2
          exact ⟨zs, by rw [hzs]; rfl⟩

/-- The first occurrence wins: when the prefix before a mention contains no
mention of its own, the scan returns exactly that mention's digits. -/
theorem findMention_first :
    ∀ (pre id post : List Char), ¬ containsMention pre → id ≠ [] →
      (∀ c ∈ id, c.isDigit = true) →
      findMention (pre ++ '<' :: '@' :: '!' :: (id ++ '>' :: post)) = some id := by
  intro pre
  induction pre with
  | nil =>
      intro id post _ hne hdig
      rw [List.nil_append, findMention, mention_head_match id post hne hdig]
  | cons c pre' ih =>
      intro id post hpre hne hdig
      rw [List.cons_append, findMention]
      cases hm : matchMentionAt (c :: (pre' ++ '<' :: '@' :: '!' :: (id ++ '>' :: post))) with
      | some ds =>
          exfalso
          apply hpre
          obtain ⟨rest, post₀, hshape, hdsdef, hdsne, hdrop⟩ := matchMentionAt_some _ _ hm
          have hrest : rest = ds ++ '>' :: post₀ := by
            conv_lhs => rw [← List.takeWhile_append_dropWhile (p := Char.isDigit) (l := rest)]
            rw [← hdsdef, hdrop]
          have hdigs : ∀ x ∈ ds, x.isDigit = true := by
            intro x hx
            rw [hdsdef] at hx
            exact List.mem_takeWhile_imp hx
          rw [hrest] at hshape
          -- hshape : c :: (pre' ++ M) = '<' :: '@' :: '!' :: (ds ++ '>' :: post₀)
          cases pre' with
          | nil => simp at hshape
          | cons d pre'' =>
              cases pre'' with
              | nil => simp at hshape
              | cons e pre₃ =>
                  simp only [List.cons_append, List.cons.injEq] at hshape
                  obtain ⟨rfl, rfl, rfl, hkey⟩ := hshape
                  obtain ⟨zs, hzs⟩ := split_digits_gt ds pre₃
                    post₀ ('@' :: '!' :: (id ++ '>' :: post)) hdigs hkey
                  exact ⟨[], ds, zs, by rw [hzs]; rfl, hdsne, hdigs⟩
      | none =>
          exact ih id post (fun h => hpre (containsMention_cons c pre' h)) hne hdig

theorem bang_mem_of_containsMention (s : List Char) (h : containsMention s) : '!' ∈ s := by
  obtain ⟨pre, id, post, heq, _, _⟩ := h
  rw [heq]
  simp

/-- C8 amended: `parse_credit_id` searches the whole string with
`<@!(\d+)>`.  (1) For every string decomposed as an arbitrary prefix
followed by a full `<@!digits>` mention, where the prefix itself contains no
mention, parsing returns the digits of that (first) occurrence, whatever
follows it.  (2) Every string containing no such occurrence at all is
returned unchanged.  (3) In particular a `<@id>` mention without the `!` is
returned unchanged. -/
theorem parse_credit_id_strips_only_bang_mentions :
    (∀ pre id post : List Char, ¬ containsMention pre → id ≠ [] →
        (∀ c ∈ id, c.isDigit = true) →
        parse_credit_id (pre ++ '<' :: '@' :: '!' :: (id ++ '>' :: post)) = id) ∧
    (∀ s : List Char, ¬ containsMention s → parse_credit_id s = s) ∧
    (∀ id : List Char, id ≠ [] → (∀ c ∈ id, c.isDigit = true) →
        parse_credit_id ('<' :: '@' :: (id ++ ['>'])) = '<' :: '@' :: (id ++ ['>'])) := by
  have unchanged : ∀ s : List Char, ¬ containsMention s → parse_credit_id s = s := by
    intro s hno
    rw [parse_credit_id]
    cases hm : findMention s with
    | none => rfl
    | some ds =>
        exfalso
        obtain ⟨pre, post, heq, hne, hdig⟩ := findMention_some_structure s ds hm
        exact hno ⟨pre, ds, post, heq, hne, hdig⟩
  refine ⟨?_, unchanged, ?_⟩
  · intro pre id post hpre hne hdig
    rw [parse_credit_id, findMention_first pre id post hpre hne hdig]
  · intro id hne hdig
    apply unchanged
    intro hcon
    have := bang_mem_of_containsMention _ hcon
    simp only [List.mem_cons, List.mem_append, List.not_mem_nil, or_false,
      List.mem_singleton] at this
    rcases this with h1 | h1 | h1 | h1
    · exact absurd h1.symm (by decide)
    · exact absurd h1.symm (by decide)
    · have := hdig '!' h1
      exact absurd this (by decide)
    · exact absurd h1.symm (by decide)

/-- C8 amended, witness: a mention embedded mid-string is stripped to its
digits, and a mention-free string is unchanged. -/
theorem parse_credit_id_strips_only_bang_mentions_witness :
    parse_credit_id (['a', 'b'] ++ '<' :: '@' :: '!' :: ((['1', '2', '3']) ++ '>' :: ['c']))
      = ['1', '2', '3'] ∧
    parse_credit_id ['h', 'i'] = ['h', 'i'] ∧
    parse_credit_id ('<' :: '@' :: (['1', '2', '3'] ++ ['>']))
      = '<' :: '@' :: (['1', '2', '3'] ++ ['>']) := by
  refine ⟨?_, ?_, ?_⟩
  · exact parse_credit_id_strips_only_bang_mentions.1 ['a', 'b'] ['1', '2', '3'] ['c']
      (fun h => absurd (containsMention_findMention_isSome _ h) (by decide))
      (by decide) (by decide)
  · exact parse_credit_id_strips_only_bang_mentions.2.1 ['h', 'i']
      (fun h => absurd (containsMention_findMention_isSome _ h) (by decide))
  · exact parse_credit_id_strips_only_bang_mentions.2.2 ['1', '2', '3']
      (by decide) (by decide)

/-! ### C10 — the cache's unreachable branch -/

/-- C10: with an infallible producer (`E = Infallible`, embedded as `Empty`),
`cached_may_fail` can never return `Ok(Err(_))`, so `cached`'s
`unreachable_unchecked` branch is dead and `cached` always produces a value:
the decoded cache hit, the computed value, or the store's own error. -/
theorem cached_infallible_never_inner_error {RedisErr T : Type}
    (getResult : Except RedisErr (Option String))
    (decode : String → Except RedisErr T)
    (encodeOk setOk : Bool) (producerOutput : CacheBehaviour T) :
    (∀ (p : Except Empty (CacheBehaviour T)) (r : Except Empty T),
        cached_may_fail getResult decode encodeOk setOk p = .ok r → r.isOk = true) ∧
    (cached getResult decode encodeOk setOk producerOutput).isSome = true := by
  constructor
  · intro p r h
    rcases getResult with e | mv
    · simp [cached_may_fail] at h
    · rcases mv with _ | s
      · rcases p with e | cb
        · exact e.elim
        · rcases cb with v | v <;> simp [cached_may_fail] at h <;> rw [← h] <;> rfl
      · rcases hdec : decode s with e | v
        · simp [cached_may_fail, hdec] at h
        · simp [cached_may_fail, hdec] at h
          rw [← h]
          rfl
  · rcases getResult with e | mv
    · simp [cached, cached_may_fail]
    · rcases mv with _ | s
      · rcases producerOutput with v | v <;> simp [cached, cached_may_fail]
      · rcases hdec : decode s with e | v <;> simp [cached, cached_may_fail, hdec]

/-! ### C9 — the frame dump to /workdir -/

theorem frame_save_loop_all_ok (saveOk : String → Bool) :
    ∀ (fs : List Frame) (k : Nat),
      (∀ i < fs.length, saveOk ("/workdir/" ++ toString (k + i) ++ ".png") = true) →
      frame_save_loop saveOk k fs
        = some ((List.range fs.length).map
            (fun i => "/workdir/" ++ toString (k + i) ++ ".png")) := by
  intro fs
  induction fs with
  | nil => intro k _; rfl
  | cons f rest ih =>
      intro k h
      have h0 : saveOk ("/workdir/" ++ toString k ++ ".png") = true := by
        have := h 0 (by simp)
        simpa using this
      have hrest : ∀ i < rest.length, saveOk ("/workdir/" ++ toString (k + 1 + i) ++ ".png")
          = true := by
        intro i hi
        have := h (i + 1) (by simpa using Nat.succ_lt_succ hi)
        simpa [show k + (i + 1) = k + 1 + i by omega] using this
      have harr : ∀ i : Nat, k + 1 + i = k + (i + 1) := fun i => by omega
      rw [frame_save_loop, if_pos h0, ih (k + 1) hrest]
      simp [List.range_succ_eq_map, Function.comp, harr]

theorem frame_save_loop_fails (saveOk : String → Bool) :
    ∀ (fs : List Frame) (k : Nat),
      (∃ i, i < fs.length ∧ saveOk ("/workdir/" ++ toString (k + i) ++ ".png") = false) →
      frame_save_loop saveOk k fs = none := by
  intro fs
  induction fs with
  | nil => intro k h; obtain ⟨i, hi, _⟩ := h; simp at hi
  | cons f rest ih =>
      intro k h
      by_cases h0 : saveOk ("/workdir/" ++ toString k ++ ".png") = true
      · obtain ⟨i, hi, hfail⟩ := h
        match i with
        | 0 =>
            exfalso
            rw [show k + 0 = k by omega] at hfail
            rw [h0] at hfail
            exact absurd hfail (by decide)
        | j + 1 =>
            have : frame_save_loop saveOk (k + 1) rest = none := by
              refine ih (k + 1) ⟨j, by simpa using Nat.lt_of_succ_lt_succ hi, ?_⟩
              simpa [show k + 1 + j = k + (j + 1) by omega] using hfail
            rw [frame_save_loop, if_pos h0, this]
            rfl
      · rw [frame_save_loop, if_neg h0]

/-- C9: `make_sprite_recolor_sheet` starts by writing every kept frame to the
fixed path `/workdir/<index>.png`, in index order — so when every save
succeeds the write trace is exactly `"/workdir/0.png", …,
"/workdir/(n-1).png"` (one write per kept frame, on every build) — and the
`.unwrap()` panics the build as soon as any such write fails. -/
theorem sprite_recolor_sheet_writes_workdir (frames : List Frame) (saveOk : String → Bool) :
    ((∀ i < frames.length, saveOk ("/workdir/" ++ toString i ++ ".png") = true) →
      make_sprite_recolor_sheet frames saveOk
        = some ((List.range frames.length).map (fun i => "/workdir/" ++ toString i ++ ".png"),
            sprite_recolor_layout frames)) ∧
    ((∃ i, i < frames.length ∧ saveOk ("/workdir/" ++ toString i ++ ".png") = false) →
      make_sprite_recolor_sheet frames saveOk = none) := by
  constructor
  · intro h
    have := frame_save_loop_all_ok saveOk frames 0 (by simpa using h)
    rw [make_sprite_recolor_sheet, this]
    simp
  · intro h
    have := frame_save_loop_fails saveOk frames 0 (by simpa using h)
    rw [make_sprite_recolor_sheet, this]

/-! ### C4 — sprite recolor atlas geometry -/

/-- C4 counterexample: for the single kept 1×1 frame with all anchors at the
origin the tile is 2×2 and the code places the frame at offset
`(tileW/2 - w/2, tileH/2 - h/2) = (1, 1)` inside its tile — not at the
claimed `((tileW - w)/2, (tileH - h)/2) = (0, 0)`. -/
theorem sprite_recolor_centering_differs_for_odd_frames :
    sprite_recolor_layout [Frame.mk 1 1 zeroOff]
      = { side := 1, tileW := 2, tileH := 2, placements := [(1, 1)] } ∧
    ((1 : Nat), (1 : Nat)) ≠ (((2 : Nat) - 1) / 2, ((2 : Nat) - 1) / 2) := by
  refine ⟨by decide, by decide⟩

theorem frame_size_step_mono (acc : Nat × Nat) (f : Frame) :
    acc.1 ≤ (frame_size_step acc f).1 ∧ acc.2 ≤ (frame_size_step acc f).2 := by
  unfold frame_size_step
  constructor
  · exact le_trans (le_max_left _ _) (le_max_left _ _)
  · exact le_trans (le_max_left _ _) (le_max_left _ _)

theorem foldl_frame_size_mono :
    ∀ (l : List Frame) (acc : Nat × Nat),
      acc.1 ≤ (l.foldl frame_size_step acc).1 ∧ acc.2 ≤ (l.foldl frame_size_step acc).2 := by
  intro l
  induction l with
  | nil => intro acc; exact ⟨le_refl _, le_refl _⟩
  | cons f rest ih =>
      intro acc
      constructor
      · exact le_trans (frame_size_step_mono acc f).1 (ih (frame_size_step acc f)).1
      · exact le_trans (frame_size_step_mono acc f).2 (ih (frame_size_step acc f)).2

theorem mem_le_foldl_frame_size :
    ∀ (l : List Frame) (acc : Nat × Nat) (f : Frame), f ∈ l →
      f.width ≤ (l.foldl frame_size_step acc).1 ∧
      f.height ≤ (l.foldl frame_size_step acc).2 := by
  intro l
  induction l with
  | nil => intro acc f hf; simp at hf
  | cons g rest ih =>
      intro acc f hf
      rcases List.mem_cons.mp hf with rfl | hmem
      · have hstep : f.width ≤ (frame_size_step acc f).1 ∧
            f.height ≤ (frame_size_step acc f).2 := by
          unfold frame_size_step
          exact ⟨le_trans (le_max_right _ _) (le_max_left _ _),
            le_trans (le_max_right _ _) (le_max_left _ _)⟩
        exact ⟨le_trans hstep.1 (foldl_frame_size_mono rest (frame_size_step acc f)).1,
          le_trans hstep.2 (foldl_frame_size_mono rest (frame_size_step acc f)).2⟩
      · exact ih (frame_size_step acc g) f hmem

theorem le_round_up_to_mult (m : Nat) : m ≤ round_up_to_mult m 2 := by
  unfold round_up_to_mult
  rcases Nat.eq_zero_or_pos m with rfl | hm
  · omega
  · have h := Nat.div_add_mod (m - 1) 2
    have h2 : (m - 1) % 2 < 2 := Nat.mod_lt _ (by norm_num)
    omega

theorem round_up_to_mult_even (m : Nat) : round_up_to_mult m 2 % 2 = 0 := by
  unfold round_up_to_mult
  exact Nat.mul_mod_left _ 2

theorem le_ceil_sqrt_sq (n : Nat) : n ≤ ceil_sqrt n * ceil_sqrt n := by
  unfold ceil_sqrt
  split
  · rename_i h
    have heq : Nat.sqrt n * Nat.sqrt n = n := by simpa using h
    exact le_of_eq heq.symm
  · exact le_of_lt (Nat.lt_succ_sqrt n)

/-- C4 amended: for every non-empty list of kept frames the atlas side `S =
ceil(sqrt(count))` satisfies `S * S ≥ count`; the tile dimensions are the
maxima of frame sizes and centered-anchor bounds rounded up to the next even
number (hence even); and each frame of width `w` and height `h` is copied at
offset `(tileW/2 - w/2, tileH/2 - h/2)` from its tile origin (integer
division — this equals `((tileW - w)/2, (tileH - h)/2)` only for even `w`,
`h`), which always keeps the frame inside its tile. -/
theorem sprite_recolor_atlas_spec (frames : List Frame)
    (hne : frames ≠ [])
    (hdims : ∀ f ∈ frames, 1 ≤ f.width ∧ 1 ≤ f.height) :
    (sprite_recolor_layout frames).side * (sprite_recolor_layout frames).side
        ≥ frames.length ∧
    (sprite_recolor_layout frames).tileW % 2 = 0 ∧
    (sprite_recolor_layout frames).tileH % 2 = 0 ∧
    (sprite_recolor_layout frames).placements.length = frames.length ∧
    (∀ (i : Nat) (f : Frame), frames[i]? = some f →
      (sprite_recolor_layout frames).placements[i]? = some
        ((i % (sprite_recolor_layout frames).side) * (sprite_recolor_layout frames).tileW
            + ((sprite_recolor_layout frames).tileW / 2 - f.width / 2),
         (i / (sprite_recolor_layout frames).side) * (sprite_recolor_layout frames).tileH
            + ((sprite_recolor_layout frames).tileH / 2 - f.height / 2))) ∧
    (∀ f ∈ frames,
      f.width ≤ (sprite_recolor_layout frames).tileW ∧
      f.height ≤ (sprite_recolor_layout frames).tileH ∧
      (sprite_recolor_layout frames).tileW / 2 - f.width / 2 + f.width
          ≤ (sprite_recolor_layout frames).tileW ∧
      (sprite_recolor_layout frames).tileH / 2 - f.height / 2 + f.height
          ≤ (sprite_recolor_layout frames).tileH) := by
  have hsize : ∀ f ∈ frames,
      f.width ≤ (get_sprite_frame_size_from_frames frames).1 ∧
      f.height ≤ (get_sprite_frame_size_from_frames frames).2 := by
    intro f hf
    have h := mem_le_foldl_frame_size frames (0, 0) f hf
    unfold get_sprite_frame_size_from_frames
    exact ⟨le_trans h.1 (le_round_up_to_mult _), le_trans h.2 (le_round_up_to_mult _)⟩
  have heven : (get_sprite_frame_size_from_frames frames).1 % 2 = 0 ∧
      (get_sprite_frame_size_from_frames frames).2 % 2 = 0 := by
    unfold get_sprite_frame_size_from_frames
    exact ⟨round_up_to_mult_even _, round_up_to_mult_even _⟩
  refine ⟨le_ceil_sqrt_sq frames.length, heven.1, heven.2, by simp [sprite_recolor_layout],
    ?_, ?_⟩
  · intro i f hif
    simp only [sprite_recolor_layout, List.getElem?_map, List.getElem?_enum, hif]
    rfl
  · intro f hf
    obtain ⟨hw, hh⟩ := hsize f hf
    refine ⟨hw, hh, ?_, ?_⟩
    · have h1 := Nat.div_add_mod f.width 2
      have h2 := Nat.div_add_mod (sprite_recolor_layout frames).tileW 2
      have h3 : (sprite_recolor_layout frames).tileW % 2 = 0 := heven.1
      have h4 : f.width % 2 < 2 := Nat.mod_lt _ (by norm_num)
      have hw' : f.width ≤ (sprite_recolor_layout frames).tileW := hw
      omega
    · have h1 := Nat.div_add_mod f.height 2
      have h2 := Nat.div_add_mod (sprite_recolor_layout frames).tileH 2
      have h3 : (sprite_recolor_layout frames).tileH % 2 = 0 := heven.2
      have h4 : f.height % 2 < 2 := Nat.mod_lt _ (by norm_num)
      have hh' : f.height ≤ (sprite_recolor_layout frames).tileH := hh
      omega

/-- C4 amended, witness at a single 1×1 frame. -/
theorem sprite_recolor_atlas_spec_witness :
    (sprite_recolor_layout [Frame.mk 1 1 zeroOff]).side
        * (sprite_recolor_layout [Frame.mk 1 1 zeroOff]).side
      ≥ ([Frame.mk 1 1 zeroOff] : List Frame).length :=
  (sprite_recolor_atlas_spec [Frame.mk 1 1 zeroOff] (by decide) (by decide)).1

/-! ### C5 — portrait sheet layout -/

/-- C5 counterexample: for one declared emotion and `tile_x = 2` the emotion
is assigned cell `(0, 0)` (so `max_row = 0`), but `max_height` is the number
of *completed* rows, `0` — the canvas is `40 × 0` with `portrait_size = 40`
and `padding_top = 0`, not the claimed `(max_row + 1) * 40 = 40` tall; if the
portrait image actually opens, the copy into the zero-height canvas makes the
build error instead. -/
theorem portrait_sheet_partial_row_cut :
    (PortraitSheetEmotions.new ["A"] 2).emotion_positions = [("A", 0, 0)] ∧
    (PortraitSheetEmotions.new ["A"] 2).max_height = 0 ∧
    do_make_portrait_sheet 0 [("A", true)] (PortraitSheetEmotions.new ["A"] 2)
        (fun _ => none) 40 = .ok ((40, 0), []) ∧
    do_make_portrait_sheet 0 [("A", true)] (PortraitSheetEmotions.new ["A"] 2)
        (fun _ => some (40, 40)) 40 = .error () ∧
    (0 : Nat) ≠ (0 + 1) * 40 + 0 := by
  refine ⟨rfl, rfl, rfl, rfl, by decide⟩

theorem row_step_eq (w k : Nat) (hw : 0 < w) :
    (if k % w == w - 1 then k / w + 1 else k / w) = (k + 1) / w := by
  have hkey : (k + 1) % w = (k % w + 1) % w := by
    conv_lhs => rw [← Nat.div_add_mod k w]
    rw [Nat.add_assoc, Nat.mul_add_mod]
  have hmod : k % w < w := Nat.mod_lt _ hw
  rw [Nat.succ_div]
  by_cases h : k % w = w - 1
  · have hdvd : w ∣ k + 1 := by
      apply Nat.dvd_of_mod_eq_zero
      rw [hkey, h, Nat.sub_add_cancel hw, Nat.mod_self]

    rw [if_pos (by simpa using h), if_pos hdvd]
  · have hlt : k % w + 1 < w := by omega
    have hndvd : ¬ w ∣ k + 1 := by
      intro hdvd
      have h0 : (k + 1) % w = 0 := Nat.dvd_iff_mod_eq_zero.mp hdvd
      rw [hkey, Nat.mod_eq_of_lt hlt] at h0
      omega
    rw [if_neg (by simpa using h), if_neg hndvd]
    omega

theorem pse_go_row (w : Nat) (hw : 0 < w) :
    ∀ (cfg : List String) (k m : Nat) (pos : List (String × Nat × Nat)),
      (pse_new_go w k (k / w) m pos cfg).2.2 = (k + cfg.length) / w := by
  intro cfg
  induction cfg with
  | nil => intro k m pos; simp [pse_new_go]
  | cons e rest ih =>
      intro k m pos
      rw [pse_new_go]
      rw [row_step_eq w k hw]
      rw [ih (k + 1)]
      simp only [List.length_cons]
      congr 1
      omega

theorem foldr_max_init (l : List Nat) : ∀ a, l.foldr max a = max a (l.foldr max 0) := by
  induction l with
  | nil => intro a; simp
  | cons x t ih =>
      intro a
      simp only [List.foldr_cons]
      rw [ih a, max_left_comm]

theorem pse_go_mw (w : Nat) :
    ∀ (cfg : List String) (k r m : Nat) (pos : List (String × Nat × Nat)),
      (pse_new_go w k r m pos cfg).2.1
        = max m (((List.range cfg.length).map (fun j => (k + j) % w + 1)).foldr max 0) := by
  intro cfg
  induction cfg with
  | nil => intro k r m pos; simp [pse_new_go]
  | cons e rest ih =>
      intro k r m pos
      have hmap : (List.range (rest.length + 1)).map (fun j => (k + j) % w + 1)
          = (k % w + 1)
            :: (List.range rest.length).map (fun j => (k + 1 + j) % w + 1) := by
        have hfun : ((fun j => (k + j) % w + 1) ∘ Nat.succ)
            = (fun j => (k + 1 + j) % w + 1) := by
          funext j
          show (k + (j + 1)) % w + 1 = (k + 1 + j) % w + 1
          rw [show k + (j + 1) = k + 1 + j from by omega]
        rw [List.range_succ_eq_map]
        simp only [List.map_cons, Nat.add_zero, List.map_map]
        rw [hfun]
      rw [pse_new_go]
      rw [ih (k + 1)]
      rw [List.length_cons, hmap, List.foldr_cons]
      rw [max_assoc]

theorem range_colmax (w : Nat) (hw : 0 < w) :
    ∀ n : Nat, ((List.range n).map (fun j => j % w + 1)).foldr max 0 = min n w := by
  intro n
  induction n with
  | zero => simp
  | succ n ih =>
      rw [List.range_succ, List.map_append, List.foldr_append]
      simp only [List.map_cons, List.map_nil, List.foldr_cons, List.foldr_nil]
      rw [Nat.max_zero, foldr_max_init, ih]
      by_cases h : n < w
      · rw [Nat.mod_eq_of_lt h, min_eq_left (le_of_lt h),
          min_eq_left (Nat.succ_le_of_lt h)]
        exact max_eq_left (Nat.le_succ n)
      · have hwn : w ≤ n := le_of_not_lt h
        have hmod : n % w < w := Nat.mod_lt _ hw
        rw [min_eq_right hwn, min_eq_right (by omega)]
        exact max_eq_right (by omega)

theorem pse_go_positions (w : Nat) (hw : 0 < w) :
    ∀ (cfg : List String) (k m : Nat) (pos : List (String × Nat × Nat)),
      (∀ e ∈ cfg, pos.any (fun p => p.1 == e) = false) → cfg.Nodup →
      (pse_new_go w k (k / w) m pos cfg).1
        = pos ++ (cfg.enumFrom k).map (fun p => (p.2, (p.1 % w, p.1 / w))) := by
  intro cfg
  induction cfg with
  | nil => intro k m pos _ _; simp [pse_new_go]
  | cons e rest ih =>
      intro k m pos hfresh hnd
      rw [pse_new_go]
      have hins : insertPos pos e (k % w, k / w) = pos ++ [(e, (k % w, k / w))] := by
        unfold insertPos
        rw [if_neg (by simp [hfresh e (by simp)])]
      rw [row_step_eq w k hw, hins]
      rw [ih (k + 1) _ _ ?fresh ?nodup]
      case fresh =>
        intro x hx
        have h1 : pos.any (fun p => p.1 == x) = false := hfresh x (by simp [hx])
        have h2 : e ≠ x := by
          rintro rfl
          exact (List.nodup_cons.mp hnd).1 hx
        simp [List.any_append, h1, h2]
      case nodup => exact (List.nodup_cons.mp hnd).2
      simp [List.enumFrom_cons, List.append_assoc]

theorem lookup_enum_positions (w : Nat) :
    ∀ (cfg : List String), cfg.Nodup →
      ∀ (k i : Nat) (e : String), cfg[i]? = some e →
        lookupPos ((cfg.enumFrom k).map (fun p => (p.2, (p.1 % w, p.1 / w)))) e
          = some ((k + i) % w, (k + i) / w) := by
  intro cfg
  induction cfg with
  | nil => intro _ k i e he; simp at he
  | cons x rest ih =>
      intro hnd k i e he
      match i with
      | 0 =>
          have hx : x = e := by simpa using he
          subst hx
          simp [List.enumFrom_cons, lookupPos, List.find?_cons]
      | j + 1 =>
          have he' : rest[j]? = some e := by simpa using he
          have hmem : e ∈ rest := List.getElem?_mem he'
          have hne : (x == e) = false := by
            simp only [beq_eq_false_iff_ne, ne_eq]
            rintro rfl
            exact (List.nodup_cons.mp hnd).1 hmem
          have hrec := ih (List.nodup_cons.mp hnd).2 (k + 1) j e he'
          simp only [List.enumFrom_cons, List.map_cons, lookupPos, List.find?_cons] at hrec ⊢
          rw [hne]
          rw [show k + (j + 1) = k + 1 + j by omega]
          exact hrec

theorem lookup_enum_positions_none (w : Nat) :
    ∀ (cfg : List String) (k : Nat) (e : String), e ∉ cfg →
      lookupPos ((cfg.enumFrom k).map (fun p => (p.2, (p.1 % w, p.1 / w)))) e = none := by
  intro cfg
  induction cfg with
  | nil => intro k e _; rfl
  | cons x rest ih =>
      intro k e he
      have hne : (x == e) = false := by
        simp only [beq_eq_false_iff_ne, ne_eq]
        rintro rfl
        exact he (by simp)
      have := ih (k + 1) e (fun hmem => he (by simp [hmem]))
      simp only [List.enumFrom_cons, List.map_cons, lookupPos, List.find?_cons] at this ⊢
      rw [hne]
      exact this

theorem except_map_ok {ε α β : Type} (f : α → β) (x : Except ε α) (r : β)
    (h : x.map f = .ok r) : ∃ c, x = .ok c ∧ r = f c := by
  cases x with
  | error e => simp [Except.map] at h
  | ok a =>
      simp only [Except.map, Except.ok.injEq] at h
      exact ⟨a, rfl, h.symm⟩

theorem do_make_portrait_sheet_all_missing (padding_top portrait_size : Nat)
    (emotions : PortraitSheetEmotions) :
    ∀ (portrait_files : List (String × Bool)),
      do_make_portrait_sheet padding_top portrait_files emotions (fun _ => none)
          portrait_size
        = .ok ((emotions.max_width * portrait_size,
            emotions.max_height * portrait_size + padding_top), []) := by
  have key : ∀ (pf : List (String × Bool)) (acc : List (String × Nat × Nat)),
      pf.foldlM (m := Except Unit)
        (fun acc entry =>
          match lookupPos emotions.emotion_positions entry.1 with
          | none => Except.ok acc
          | some (x, y) =>
              match (fun _ : String => (none : Option (Nat × Nat))) entry.1 with
              | none => Except.ok acc
              | some (iw, ih) =>
                  if x * portrait_size + iw ≤ emotions.max_width * portrait_size ∧
                      y * portrait_size + padding_top + ih
                        ≤ emotions.max_height * portrait_size + padding_top then
                    Except.ok (acc ++ [(entry.1, x * portrait_size,
                      y * portrait_size + padding_top)])
                  else Except.error ()) acc = .ok acc := by
    intro pf
    induction pf with
    | nil => intro acc; rfl
    | cons entry rest ih =>
        intro acc
        rw [List.foldlM_cons]
        match h : lookupPos emotions.emotion_positions entry.1 with
        | none => simpa [h] using ih acc
        | some (x, y) => simpa [h] using ih acc
  intro pf
  unfold do_make_portrait_sheet
  rw [key pf []]
  rfl

/-- C5 amended: each declared emotion `idx` maps to cell `(idx mod tile_x,
idx div tile_x)` and undeclared emotions are omitted; the canvas is
`min(count, tile_x) * portrait_size` wide (that is `(max_col + 1) *
portrait_size`) but only `(count div tile_x) * portrait_size + padding_top`
tall — the height counts *completed* rows, so it equals
`(max_row + 1) * portrait_size + padding_top` only when `tile_x` divides the
number of declared emotions; emotions in a trailing partial row lie outside
the canvas.  Missing portrait images are silently skipped. -/
theorem portrait_sheet_layout_spec (emotion_cfg : List String) (width_sheet : Nat)
    (hw : 0 < width_sheet) (hnd : emotion_cfg.Nodup) :
    (∀ (i : Nat) (e : String), emotion_cfg[i]? = some e →
      lookupPos (PortraitSheetEmotions.new emotion_cfg width_sheet).emotion_positions e
        = some (i % width_sheet, i / width_sheet)) ∧
    (∀ e, e ∉ emotion_cfg →
      lookupPos (PortraitSheetEmotions.new emotion_cfg width_sheet).emotion_positions e
        = none) ∧
    (PortraitSheetEmotions.new emotion_cfg width_sheet).max_height
        = emotion_cfg.length / width_sheet ∧
    (PortraitSheetEmotions.new emotion_cfg width_sheet).max_width
        = min emotion_cfg.length width_sheet ∧
    (∀ (padding_top portrait_size : Nat) (portrait_files : List (String × Bool))
        (openImg : String → Option (Nat × Nat)) r,
      do_make_portrait_sheet padding_top portrait_files
          (PortraitSheetEmotions.new emotion_cfg width_sheet) openImg portrait_size
        = .ok r →
      r.1 = ((min emotion_cfg.length width_sheet) * portrait_size,
             (emotion_cfg.length / width_sheet) * portrait_size + padding_top)) ∧
    (∀ (padding_top portrait_size : Nat) (portrait_files : List (String × Bool)),
      do_make_portrait_sheet padding_top portrait_files
          (PortraitSheetEmotions.new emotion_cfg width_sheet) (fun _ => none) portrait_size
        = .ok ((min emotion_cfg.length width_sheet * portrait_size,
            emotion_cfg.length / width_sheet * portrait_size + padding_top), [])) := by
  have hpos : (PortraitSheetEmotions.new emotion_cfg width_sheet).emotion_positions
      = (emotion_cfg.enumFrom 0).map
          (fun p => (p.2, (p.1 % width_sheet, p.1 / width_sheet))) := by
    unfold PortraitSheetEmotions.new
    have := pse_go_positions width_sheet hw emotion_cfg 0 0 []
      (fun e _ => rfl) hnd
    simpa using this
  have hmh : (PortraitSheetEmotions.new emotion_cfg width_sheet).max_height
      = emotion_cfg.length / width_sheet := by
    unfold PortraitSheetEmotions.new
    have := pse_go_row width_sheet hw emotion_cfg 0 0 []
    simpa using this
  have hmw : (PortraitSheetEmotions.new emotion_cfg width_sheet).max_width
      = min emotion_cfg.length width_sheet := by
    unfold PortraitSheetEmotions.new
    have h1 := pse_go_mw width_sheet emotion_cfg 0 0 0 []
    have h2 := range_colmax width_sheet hw emotion_cfg.length
    simp only [Nat.zero_add, zero_add] at h1 h2 ⊢
    rw [h1, h2]
    exact Nat.zero_max _
  refine ⟨?_, ?_, hmh, hmw, ?_, ?_⟩
  · intro i e he
    rw [hpos]
    have := lookup_enum_positions width_sheet emotion_cfg hnd 0 i e he
    simpa using this
  · intro e he
    rw [hpos]
    exact lookup_enum_positions_none width_sheet emotion_cfg 0 e he
  · intro padding_top portrait_size portrait_files openImg r hok
    unfold do_make_portrait_sheet at hok
    obtain ⟨c, _, hr⟩ := except_map_ok _ _ _ hok
    rw [hr, ← hmw, ← hmh]
  · intro padding_top portrait_size portrait_files
    have := do_make_portrait_sheet_all_missing padding_top portrait_size
      (PortraitSheetEmotions.new emotion_cfg width_sheet) portrait_files
    rw [hmw, hmh] at this
    exact this

/-- C5 amended, witness at `emotions = ["A", "B", "C"]`, `tile_x = 2`. -/
theorem portrait_sheet_layout_spec_witness :
    lookupPos (PortraitSheetEmotions.new ["A", "B", "C"] 2).emotion_positions "C"
      = some (2 % 2, 2 / 2) :=
  (portrait_sheet_layout_spec ["A", "B", "C"] 2 (by decide) (by decide)).1 2 "C" (by decide)

/-! ### C3 — credit resolver on a post-cutover commit -/

/-- C3: for the commit at 2022-05-07T19:29:50Z (strictly after the cutover)
with asset name "Happy", and the five-column new-format row
`2022-05-01 12:00:00 │ 123 │ false │ Unknown │ Happy,Sad` as the credits.txt
at HEAD and at the commit, the claim (and the spec) expect Certain("123").
The sc-activity-rec `LocalCreditRow` has only the three fields `date`,
`credit_id`, `items`, so the positional CSV deserialization reads the
obsolete-flag column `"false"` as the items list: the credits map becomes
`{"false" ↦ "123"}`, the "Happy" and "?" probes and every fallback stage
fail, and the resolver errors with `MissingCredits` instead.  The main
crate's five-field `LocalCreditRow` (src/datafiles/local_credits_file.rs)
parses the same row with `items = ["Happy", "Sad"]`, under which the lookup
would indeed find "123" — the three-field struct is the slip. -/
theorem activity_credit_lookup_misparses_five_column_row :
    CREDIT_CONSISTENCY_TIME < c3input.commitTime ∧
    parse_ar_local_credit_row c3row
      = .ok ⟨dtKey 2022 5 1 12 0 0 0, "123", ["false"]⟩ ∧
    parse_main_local_credit_row c3row
      = .ok ⟨dtKey 2022 5 1 12 0 0 0, "123", false, "Unknown", ["Happy", "Sad"]⟩ ∧
    lookupCredit (["Happy", "Sad"].foldl (fun m item => insertCredit m item "123") []) "Happy"
      = some "123" ∧
    get_credit_id c3input = .error .missingCredits := by
  refine ⟨by decide, by rfl, by rfl, by rfl, by rfl⟩

end SpriteCollabSrv
